import Mathlib

/-!
Shallow embedding of the `maybe` library (sync `Maybe` and `AsyncMaybe`
optional-value containers) and proofs about its combinator semantics.

Values are modelled by an inductive `JSVal` covering the JavaScript values
the library manipulates: the two absence sentinels (`null`, `undefined`),
numbers, strings, booleans, arrays, plain records, and container instances
(`Maybe` / `AsyncMaybe` objects stored as values, which is how one-level
flattening limits become observable).  Promises are deterministic here: an
`AsyncMaybe` is modelled by the value its inner promise resolves to, and a
promise-valued callback result is modelled by a wrapper that `await`
unwraps.  Nondeterministic completion order of `Promise.all` batches is
modelled explicitly by a completion-order schedule parameter.
-/

inductive JSVal where
  | null
  | undef
  | num (n : Int)
  | str (s : String)
  | bool (b : Bool)
  | arr (xs : List JSVal)
  | obj (fs : List (String × JSVal))
  /-- a sync `Maybe` instance stored as a value; the field is its `_value` -/
  | maybeObj (v : JSVal)
  /-- an `AsyncMaybe` instance stored as a value; the field is the value its
  inner promise resolves to -/
  | asyncMaybeObj (v : JSVal)

instance : Inhabited JSVal := ⟨JSVal.undef⟩

/-- utils.ts `isNothing`: `value == null`, true exactly on `null` and
`undefined`. -/
def isNothing : JSVal → Bool
  | .null => true
  | .undef => true
  | _ => false

/-- utils.ts `isJust`: `value != null`. -/
def isJust (v : JSVal) : Bool := !isNothing v

/-- JavaScript `typeof v` for the values of the model.  `typeof null` is
`"object"`; arrays and class instances are `"object"` as well. -/
def typeofJS : JSVal → String
  | .null => "object"
  | .undef => "undefined"
  | .num _ => "number"
  | .str _ => "string"
  | .bool _ => "boolean"
  | .arr _ => "object"
  | .obj _ => "object"
  | .maybeObj _ => "object"
  | .asyncMaybeObj _ => "object"

/-- `Array.isArray`. -/
def isArrayJS : JSVal → Bool
  | .arr _ => true
  | _ => false

/-- `v instanceof Maybe`. -/
def isMaybeInstance : JSVal → Bool
  | .maybeObj _ => true
  | _ => false

/-- `v instanceof AsyncMaybe`. -/
def isAsyncMaybeInstance : JSVal → Bool
  | .asyncMaybeObj _ => true
  | _ => false

/-- Own enumerable string-keyed entries of a value, as used by object spread
`{...v}`.  Records give their fields, arrays their index-keyed elements,
container instances expose their `_value` field (TS `private` is
compile-time only; for an `AsyncMaybe` the stored promise is represented by
its resolved value), primitives contribute nothing. -/
def ownEntries : JSVal → List (String × JSVal)
  | .obj fs => fs
  | .arr xs => (xs.enum).map (fun p => (toString p.1, p.2))
  | .maybeObj v => [("_value", v)]
  | .asyncMaybeObj v => [("_value", v)]
  | _ => []

/-- Set key `k` to `v` in an association list representing a JS object:
overwrite in place if the key exists, else append (JS property order). -/
def objSet (fs : List (String × JSVal)) (k : String) (v : JSVal) :
    List (String × JSVal) :=
  if fs.any (fun p => p.1 = k) then
    fs.map (fun p => if p.1 = k then (k, v) else p)
  else fs ++ [(k, v)]

/-- `{...base, ...upds}` on entry lists: apply the updates left to right. -/
def objMerge (base : List (String × JSVal)) (upds : List (String × JSVal)) :
    List (String × JSVal) :=
  upds.foldl (fun a p => objSet a p.1 p.2) base

/-- `{...obj, [key]: u}` — spread of a single value plus one extra key. -/
def spreadWith (v : JSVal) (key : String) (u : JSVal) : JSVal :=
  .obj (objSet (ownEntries v) key u)

/-- `Object.fromEntries`: later duplicate keys win. -/
def objFromEntries (ps : List (String × JSVal)) : List (String × JSVal) :=
  objMerge [] ps

namespace Dist

/-- The compiled synchronous container of `dist/Maybe.js`: wraps a raw value
that may be one of the two absence sentinels. -/
structure Maybe where
  _value : JSVal

namespace Maybe

/-- `Maybe.fromNullable` (dist/Maybe.js). -/
def fromNullable (v : JSVal) : Maybe := ⟨v⟩

/-- `Maybe.prototype.map` (dist/Maybe.js): propagate Nothing unchanged,
else wrap `fn`'s result. -/
def map (m : Maybe) (fn : JSVal → JSVal) : Maybe :=
  if isNothing m._value then ⟨m._value⟩ else ⟨fn m._value⟩

/-- `Maybe.prototype.flatMap` (dist/Maybe.js): propagate Nothing unchanged,
else return `fn`'s container. -/
def flatMap (m : Maybe) (fn : JSVal → Maybe) : Maybe :=
  if isNothing m._value then ⟨m._value⟩ else fn m._value

/-- `Maybe.prototype.withDefault` (dist/Maybe.js), value level. -/
def withDefault (m : Maybe) (d : JSVal) : Maybe :=
  if isNothing m._value then ⟨d⟩ else m

/-- `Maybe.prototype.getOrElse` (dist/Maybe.js). -/
def getOrElse (m : Maybe) (d : JSVal) : JSVal :=
  if isNothing m._value then d else m._value

/-- `Maybe.prototype.filter` (dist/Maybe.js lines 79–83):
`if (isNothing(this._value) || !predicate(this._value)) return new Maybe(null);
return new Maybe(this._value);` — the `||` short-circuits, so the predicate
is not evaluated on an absent input. -/
def filter (m : Maybe) (predicate : JSVal → Bool) : Maybe :=
  if isNothing m._value then ⟨.null⟩
  else if !predicate m._value then ⟨.null⟩
  else ⟨m._value⟩

/-- `Maybe.prototype.extend` (dist/Maybe.js lines 91–96):
short-circuit to `new Maybe(null)` when absent or not `typeof "object"`,
else `this.flatMap(obj => fn(obj).map(u => ({...obj, [key]: u})))`. -/
def extend (m : Maybe) (key : String) (fn : JSVal → Maybe) : Maybe :=
  if isNothing m._value || !(typeofJS m._value = "object") then ⟨.null⟩
  else m.flatMap (fun obj => (fn obj).map (fun u => spreadWith obj key u))

/-- `Maybe.prototype.filterMap` (dist/Maybe.js lines 124–137): absent →
`new Maybe(null)`; else iterate over the array, returning `new Maybe(null)`
as soon as a callback result is not a `Maybe` instance, keeping the payloads
of `Just` results.  (The dist build recovers from a wrong callback shape
instead of throwing; contrast `Src.Maybe.filterMap`.) -/
def filterMapLoop (fn : JSVal → JSVal) : List JSVal → List JSVal → Maybe
  | acc, [] => ⟨.arr acc.reverse⟩
  | acc, el :: rest =>
    match fn el with
    | .maybeObj u => if isJust u then filterMapLoop fn (u :: acc) rest
                     else filterMapLoop fn acc rest
    | _ => ⟨.null⟩

def filterMap (m : Maybe) (fn : JSVal → JSVal) : Maybe :=
  if isNothing m._value then ⟨.null⟩
  else
    match m._value with
    | .arr xs => filterMapLoop fn [] xs
    | _ => ⟨.null⟩

end Maybe

/-- Identity of a method's returned container, for the immutability /
fresh-container invariant: `self` when the source returns `this`,
`fresh v` when it returns `new Maybe(v)`. -/
inductive MRet where
  | self
  | fresh (v : JSVal)

namespace Maybe

/-- Return identity of `map` (dist/Maybe.js): both branches are
`new Maybe(...)`. -/
def mapRet (m : Maybe) (fn : JSVal → JSVal) : MRet :=
  if isNothing m._value then .fresh m._value else .fresh (fn m._value)

/-- Return identity of `filter` (dist/Maybe.js): both branches are
`new Maybe(...)`. -/
def filterRet (m : Maybe) (predicate : JSVal → Bool) : MRet :=
  if isNothing m._value then .fresh .null
  else if !predicate m._value then .fresh .null
  else .fresh m._value

/-- Return identity of `withDefault` (dist/Maybe.js lines 55–57):
`return isNothing(this._value) ? new Maybe(defaultValue) : this;`. -/
def withDefaultRet (m : Maybe) (d : JSVal) : MRet :=
  if isNothing m._value then .fresh d else .self

/-- Return identity of `effect` (dist/Maybe.js lines 74–78): the method
always ends in `return this;`, whatever the side effect did. -/
def effectRet (_ : Maybe) : MRet := .self

end Maybe

end Dist

namespace Src

/-- The TypeScript synchronous container of `src/Maybe.ts`. -/
structure Maybe where
  _value : JSVal

namespace Maybe

/-- `Maybe.from` (src/Maybe.ts): if the argument is itself a `Maybe`
instance, recurse on its `value()`; else wrap it.  (Named `fromVal` because
`from` is a Lean keyword.) -/
def fromVal : JSVal → Maybe
  | .maybeObj u => fromVal u
  | v => ⟨v⟩

/-- `Maybe.prototype.map` (src/Maybe.ts): explicit null/undefined check,
then wrap `fn`'s result. -/
def map (m : Maybe) (fn : JSVal → JSVal) : Maybe :=
  if isNothing m._value then ⟨m._value⟩ else ⟨fn m._value⟩

/-- `Maybe.prototype.flatMap` (src/Maybe.ts lines 51–57). -/
def flatMap (m : Maybe) (fn : JSVal → Maybe) : Maybe :=
  if isNothing m._value then ⟨m._value⟩ else fn m._value

/-- `Maybe.prototype.when` (src/Maybe.ts): absent → `Maybe.from` of the
original value; present failing the guard → `Maybe.from(undefined)`;
present passing → `Maybe.from` of the value. -/
def when (m : Maybe) (guard : JSVal → Bool) : Maybe :=
  if isNothing m._value then fromVal m._value
  else if !guard m._value then fromVal .undef
  else fromVal m._value

/-- `map` with a callback that may throw, for embedding method bodies that
contain a `throw` (JS exceptions are modelled by `Except`). -/
def mapE (m : Maybe) (fn : JSVal → Except String JSVal) : Except String Maybe :=
  if isNothing m._value then pure ⟨m._value⟩
  else do pure ⟨← fn m._value⟩

/-- The check inside `filterMap` (src/Maybe.ts lines 78–83):
`if (!(v instanceof Maybe)) throw new Error(...); return v.value()`. -/
def checkMaybe (v : JSVal) : Except String JSVal :=
  match v with
  | .maybeObj u => pure u
  | _ => .error "filterMap callback must return a Maybe instance"

/-- `.map(check)` applied left to right over the callback results, as
`Array.prototype.map` does: the first non-`Maybe` element throws. -/
def checkAll : List JSVal → Except String (List JSVal)
  | [] => pure []
  | v :: rest => do
    let u ← checkMaybe v
    let us ← checkAll rest
    pure (u :: us)

/-- The array body of `filterMap` (src/Maybe.ts lines 74–86):
`arr.map(fn).map(check).filter(v => v !== null && v !== undefined)`;
the filter keeps exactly the `isJust` payloads.  The guard in
`when(Array.isArray)` makes the non-array branch unreachable; iterating a
non-array would be a JS `TypeError`. -/
def arrBody (fn : JSVal → JSVal) : JSVal → Except String JSVal
  | .arr xs => do
    let ys ← checkAll (xs.map fn)
    pure (.arr (ys.filter isJust))
  | _ => .error "TypeError"

/-- `Maybe.prototype.filterMap` (src/Maybe.ts lines 69–87):
`this.when(Array.isArray).map(...)` where the inner callback throws on a
non-`Maybe` element result. -/
def filterMap (m : Maybe) (fn : JSVal → JSVal) : Except String Maybe :=
  (m.when isArrayJS).mapE (arrBody fn)

/-- `Maybe.prototype.effect` (src/Maybe.ts): implemented as
`this.map(v => (fn(v), v))`, so it returns a new container. -/
def effect (m : Maybe) : Maybe :=
  m.map (fun v => v)

end Maybe

end Src

/-- An `AsyncMaybe` (src/AsyncMaybe.ts) is a promise of a possibly-absent
value; promises are deterministic in the model, so the container is
represented by the value its promise resolves to. -/
structure AsyncMaybe where
  _value : JSVal

/-- What an `AsyncMaybe` callback may return:
`Maybe<U> | AsyncMaybe<U> | U | Promise<…>`.  Containers are carried inside
`JSVal` (as `maybeObj` / `asyncMaybeObj`); `promise` marks a deferred
wrapper that `await` unwraps. -/
inductive AsyncRet where
  | val (v : JSVal)
  | promise (r : AsyncRet)

/-- `await x`: unwrap any promise layers (a promise never resolves to a
promise; `await` of a non-thenable is the identity). -/
def jsAwait : AsyncRet → JSVal
  | .val v => v
  | .promise r => jsAwait r

/-- The one-level normalization applied to an awaited callback result
(src/AsyncMaybe.ts lines 87–89 and 237–239):
`if (out instanceof AsyncMaybe) return await out.value();
if (out instanceof Maybe) return out.value(); return out;`. -/
def flatOut : JSVal → JSVal
  | .asyncMaybeObj v => v
  | .maybeObj v => v
  | v => v

/-- `v === null`. -/
def isNullJS : JSVal → Bool
  | .null => true
  | _ => false

namespace AsyncMaybe

/-- `AsyncMaybe.fromNullable`. -/
def fromNullable (v : JSVal) : AsyncMaybe := ⟨v⟩

/-- `AsyncMaybe.fromMaybe`: wraps the sync container's `value()` in a
resolved promise. -/
def fromMaybe (m : Dist.Maybe) : AsyncMaybe := ⟨m._value⟩

/-- `AsyncMaybe.prototype.map` (src/AsyncMaybe.ts lines 58–64):
`Maybe.fromNullable(await this._value).map(fn).value()`. -/
def map (m : AsyncMaybe) (fn : JSVal → JSVal) : AsyncMaybe :=
  ⟨((Dist.Maybe.fromNullable m._value).map fn)._value⟩

/-- `AsyncMaybe.prototype.flatMap` (src/AsyncMaybe.ts lines 79–92):
await the inner value; absent → return it unchanged (callback not run);
else await the callback result and normalize it one level. -/
def flatMap (m : AsyncMaybe) (fn : JSVal → AsyncRet) : AsyncMaybe :=
  if isNothing m._value then ⟨m._value⟩
  else ⟨flatOut (jsAwait (fn m._value))⟩

/-- `AsyncMaybe.prototype.filter` (src/AsyncMaybe.ts lines 110–124):
`v == null` → preserved; predicate passes → kept; else `null`. -/
def filter (m : AsyncMaybe) (predicate : JSVal → Bool) : AsyncMaybe :=
  if isNothing m._value then ⟨m._value⟩
  else if predicate m._value then ⟨m._value⟩
  else ⟨.null⟩

/-- `Promise.all` over a batch of already-issued tasks, with an explicit
completion-order schedule: completions arrive in the order given by
`order` (a list of task indices), each writing its task's result into its
slot, and the combined promise resolves to the slots read in index order.
`d` is the value of a slot never written (a task whose completion is not
in the schedule). -/
def promiseAll {α : Type} (d : α) (tasks : List α) (order : List Nat) :
    List α :=
  let slots := order.foldl
    (fun f i => Function.update f i (tasks.getD i d)) (fun _ => d)
  (List.range tasks.length).map slots

/-- `AsyncMaybe.prototype.filterMap` (src/AsyncMaybe.ts lines 221–247):
absent → preserved exactly; present non-array → `null`; array → map each
element through the callback concurrently (`Promise.all`, hence the
schedule parameter), normalize one level, drop nullish results. -/
def filterMap (m : AsyncMaybe) (fn : JSVal → AsyncRet) (order : List Nat) :
    AsyncMaybe :=
  if isNothing m._value then ⟨m._value⟩
  else
    match m._value with
    | .arr xs =>
      ⟨.arr ((promiseAll JSVal.undef
          (xs.map (fun el => flatOut (jsAwait (fn el)))) order).filter isJust)⟩
    | _ => ⟨.null⟩

end AsyncMaybe

/-- What an `assign` entry function may return:
`Maybe<any> | AsyncMaybe<any> | Promise<Maybe<any> | AsyncMaybe<any>>`. -/
inductive EntryRet where
  | maybe (v : JSVal)
  | asyncMaybe (v : JSVal)
  | promise (r : EntryRet)

/-- `Promise.resolve(fn(obj)).then(res => res.value())`: unwrap promise
layers, then take the container's (awaited) value. -/
def entryValue : EntryRet → JSVal
  | .maybe v => v
  | .asyncMaybe v => v
  | .promise r => entryValue r

/-- Scheduling events of the `assign` batch: `start k` when the entry
function for key `k` is invoked (the synchronous prefix of its task),
`complete k` when its task's promise settles. -/
inductive Ev where
  | start (k : String)
  | complete (k : String)

namespace AsyncMaybe

/-- Body of the `flatMap` callback inside `assign` (src/AsyncMaybe.ts lines
188–204): non-object base → `AsyncMaybe.fromNullable(null)`; else run all
entry tasks, `Promise.all` them under the completion schedule, collapse to
`null` if any resolved entry is nothing, else merge
`{...obj, ...Object.fromEntries(resolved)}`. -/
def assignBody (fns : List (String × (JSVal → EntryRet))) (order : List Nat)
    (obj : JSVal) : JSVal :=
  if !(typeofJS obj = "object") || isNullJS obj then .null
  else
    let resolved := promiseAll ("", JSVal.undef)
      (fns.map (fun p => (p.1, entryValue (p.2 obj)))) order
    if resolved.any (fun p => isNothing p.2) then .null
    else .obj (objMerge (ownEntries obj) (objFromEntries resolved))

/-- `AsyncMaybe.prototype.assign` (src/AsyncMaybe.ts lines 174–206):
`this.flatMap(obj => …)` where the callback returns an `AsyncMaybe` of the
body's result. -/
def assign (m : AsyncMaybe) (fns : List (String × (JSVal → EntryRet)))
    (order : List Nat) : AsyncMaybe :=
  m.flatMap (fun obj => .val (.asyncMaybeObj (assignBody fns order obj)))

/-- The event trace of one `assign` call on the event loop: when the base
is present and an object, `Object.entries(fns).map(async ([k, fn]) => …)`
runs every task's synchronous prefix — which invokes `fn(obj)` — before any
task is awaited, so all `start` events precede every `complete` event;
completions then arrive in schedule order.  A short-circuited call issues
no entry tasks. -/
def assignEvents (m : AsyncMaybe) (fns : List (String × (JSVal → EntryRet)))
    (order : List Nat) : List Ev :=
  if isNothing m._value || !(typeofJS m._value = "object")
      || isNullJS m._value then []
  else
    (fns.map (fun p => Ev.start p.1))
      ++ order.filterMap (fun i => (fns.get? i).map (fun p => Ev.complete p.1))

end AsyncMaybe

/-! ## Helper lemmas -/

theorem foldl_update_apply {α : Type} (g : Nat → α) (l : List Nat)
    (f0 : Nat → α) (x : Nat) :
    (l.foldl (fun f i => Function.update f i (g i)) f0) x
      = if x ∈ l then g x else f0 x := by
  induction l generalizing f0 with
  | nil => simp
  | cons i l ih =>
    simp only [List.foldl_cons, ih, List.mem_cons]
    rcases Decidable.em (x ∈ l) with h | h
    · simp [h]
    · rcases Decidable.em (x = i) with h2 | h2
      · simp [h, h2, Function.update]
      · simp [h, h2, Function.update]

/-- `Promise.all` resolves to the tasks' results in task (index) order, for
any completion schedule that completes every task. -/
theorem promiseAll_covered {α : Type} (d : α) (tasks : List α)
    (order : List Nat) (h : ∀ i < tasks.length, i ∈ order) :
    AsyncMaybe.promiseAll d tasks order = tasks := by
  unfold AsyncMaybe.promiseAll
  apply List.ext_getElem
  · simp
  · intro i h1 h2
    simp only [List.getElem_map, List.getElem_range]
    rw [foldl_update_apply]
    have hi : i < tasks.length := by simpa using h2
    rw [if_pos (h i hi)]
    exact List.getD_eq_getElem tasks d hi

theorem isNothing_false_of_isJust {v : JSVal} (h : isJust v = true) :
    isNothing v = false := by
  simpa [isJust] using h

theorem flatOut_raw (w : JSVal) (h1 : isMaybeInstance w = false)
    (h2 : isAsyncMaybeInstance w = false) : flatOut w = w := by
  cases w with
  | maybeObj v => exact absurd h1 (by simp [isMaybeInstance])
  | asyncMaybeObj v => exact absurd h2 (by simp [isAsyncMaybeInstance])
  | null => rfl
  | undef => rfl
  | num n => rfl
  | str s => rfl
  | bool b => rfl
  | arr xs => rfl
  | obj fs => rfl

/-! ## C1 -/

/-- C1: for `AsyncMaybe.flatMap`, an absent awaited inner value is returned
with its original sentinel tag and the callback is never consulted (the
result is the same for any two callbacks); on a present inner value the
callback result is normalized exactly one level: a promise wrapper is
awaited first (pre-awaiting changes nothing), an `AsyncMaybe` result
contributes its inner resolved value, a `Maybe` result its tagged value,
any other awaited value is the `Just` payload itself, and a container
nested inside a container survives as a container (no deeper
flattening). -/
theorem C1_async_flatMap_normalization (m : AsyncMaybe)
    (f g : JSVal → AsyncRet) :
    (isNothing m._value = true →
      (AsyncMaybe.flatMap m f)._value = m._value
      ∧ AsyncMaybe.flatMap m f = AsyncMaybe.flatMap m g)
    ∧ (isJust m._value = true →
      AsyncMaybe.flatMap m f
        = AsyncMaybe.flatMap m (fun v => .val (jsAwait (f v)))
      ∧ (∀ u, jsAwait (f m._value) = .asyncMaybeObj u →
          (AsyncMaybe.flatMap m f)._value = u)
      ∧ (∀ u, jsAwait (f m._value) = .maybeObj u →
          (AsyncMaybe.flatMap m f)._value = u)
      ∧ (isMaybeInstance (jsAwait (f m._value)) = false →
          isAsyncMaybeInstance (jsAwait (f m._value)) = false →
          (AsyncMaybe.flatMap m f)._value = jsAwait (f m._value))
      ∧ (∀ u, jsAwait (f m._value) = .maybeObj (.maybeObj u) →
          (AsyncMaybe.flatMap m f)._value = .maybeObj u)
      ∧ (∀ u, jsAwait (f m._value) = .asyncMaybeObj (.asyncMaybeObj u) →
          (AsyncMaybe.flatMap m f)._value = .asyncMaybeObj u)) := by
  constructor
  · intro h
    constructor <;> simp [AsyncMaybe.flatMap, h]
  · intro h
    have hn := isNothing_false_of_isJust h
    refine ⟨by simp [AsyncMaybe.flatMap, hn, jsAwait], ?_, ?_, ?_, ?_, ?_⟩
    · intro u hu; simp [AsyncMaybe.flatMap, hn, hu, flatOut]
    · intro u hu; simp [AsyncMaybe.flatMap, hn, hu, flatOut]
    · intro h1 h2; simp [AsyncMaybe.flatMap, hn, flatOut_raw _ h1 h2]
    · intro u hu; simp [AsyncMaybe.flatMap, hn, hu, flatOut]
    · intro u hu; simp [AsyncMaybe.flatMap, hn, hu, flatOut]

def c1fAbs : JSVal → AsyncRet := fun _ => .val (.num 99)

def c1fProm : JSVal → AsyncRet := fun _ => .promise (.val (.maybeObj (.num 2)))

def c1fNest : JSVal → AsyncRet := fun _ => .val (.maybeObj (.maybeObj (.num 7)))

/-- Witness for C1 at concrete inputs: an `undefined` inner value passes
through untouched, a promise-of-`Maybe` callback result is awaited and
unwrapped once, and a `Maybe`-inside-`Maybe` result keeps its inner
container. -/
theorem C1_witness :
    (AsyncMaybe.flatMap ⟨JSVal.undef⟩ c1fAbs)._value = JSVal.undef
    ∧ (AsyncMaybe.flatMap ⟨JSVal.num 1⟩ c1fProm)._value = JSVal.num 2
    ∧ (AsyncMaybe.flatMap ⟨JSVal.num 1⟩ c1fNest)._value
        = JSVal.maybeObj (JSVal.num 7) := by
  refine ⟨((C1_async_flatMap_normalization ⟨JSVal.undef⟩ c1fAbs c1fAbs).1
      rfl).1, ?_, ?_⟩
  · have h := (C1_async_flatMap_normalization ⟨JSVal.num 1⟩ c1fProm
      c1fProm).2 rfl
    exact h.2.2.1 (JSVal.num 2) rfl
  · have h := (C1_async_flatMap_normalization ⟨JSVal.num 1⟩ c1fNest
      c1fNest).2 rfl
    exact h.2.2.2.2.1 (JSVal.num 7) rfl

/-! ## C8 -/

/-- C8: `flatMap` is associative on present containers, for both
synchronous implementations (the dist build and the TS source). -/
theorem C8_flatMap_assoc (v : JSVal) (f g : JSVal → Dist.Maybe)
    (f2 g2 : JSVal → Src.Maybe) (h : isJust v = true) :
    Dist.Maybe.flatMap (Dist.Maybe.flatMap ⟨v⟩ f) g
      = Dist.Maybe.flatMap ⟨v⟩ (fun x => Dist.Maybe.flatMap (f x) g)
    ∧ Src.Maybe.flatMap (Src.Maybe.flatMap ⟨v⟩ f2) g2
      = Src.Maybe.flatMap ⟨v⟩ (fun x => Src.Maybe.flatMap (f2 x) g2) := by
  have hn := isNothing_false_of_isJust h
  constructor <;> simp [Dist.Maybe.flatMap, Src.Maybe.flatMap, hn]

def c8f : JSVal → Dist.Maybe := fun x => ⟨.maybeObj x⟩

def c8g : JSVal → Dist.Maybe := fun _ => ⟨.null⟩

def c8f2 : JSVal → Src.Maybe := fun x => ⟨.arr [x]⟩

def c8g2 : JSVal → Src.Maybe := fun _ => ⟨.undef⟩

/-- Witness for C8 at a concrete present container and concrete
container-returning callbacks. -/
theorem C8_witness :
    Dist.Maybe.flatMap (Dist.Maybe.flatMap ⟨JSVal.num 3⟩ c8f) c8g
      = Dist.Maybe.flatMap ⟨JSVal.num 3⟩
          (fun x => Dist.Maybe.flatMap (c8f x) c8g)
    ∧ Src.Maybe.flatMap (Src.Maybe.flatMap ⟨JSVal.num 3⟩ c8f2) c8g2
      = Src.Maybe.flatMap ⟨JSVal.num 3⟩
          (fun x => Src.Maybe.flatMap (c8f2 x) c8g2) :=
  C8_flatMap_assoc (JSVal.num 3) c8f c8g c8f2 c8g2 rfl

/-! ## C2 -/

def truePred : JSVal → Bool := fun _ => true

def falsePred : JSVal → Bool := fun _ => false

/-- C2 counterexample: the claim says an absent input to the sync
container's `filter` keeps its original sentinel tag, but
`dist/Maybe.js` returns `new Maybe(null)` for any absent input, so an
`undefined`-tagged container does not come out `undefined`-tagged. -/
theorem C2_counterexample :
    (Dist.Maybe.filter ⟨JSVal.undef⟩ truePred)._value ≠ JSVal.undef := by
  intro h
  exact JSVal.noConfusion h

/-- C2 amended: on an absent input the sync `filter` returns `Nothing`
tagged with the canonical `null` sentinel (the original tag is collapsed,
not preserved) and the predicate is not invoked (any two predicates give
the same result); a present value passing the predicate is kept; a present
value failing it collapses to the canonical `null` sentinel. -/
theorem C2_filter_amended (m : Dist.Maybe) (p q : JSVal → Bool) :
    (isNothing m._value = true →
      Dist.Maybe.filter m p = ⟨.null⟩
      ∧ Dist.Maybe.filter m p = Dist.Maybe.filter m q)
    ∧ (isJust m._value = true → p m._value = true →
        Dist.Maybe.filter m p = ⟨m._value⟩)
    ∧ (isJust m._value = true → p m._value = false →
        Dist.Maybe.filter m p = ⟨.null⟩) := by
  refine ⟨fun h => ?_, fun h hp => ?_, fun h hp => ?_⟩
  · constructor <;> simp [Dist.Maybe.filter, h]
  · simp [Dist.Maybe.filter, isNothing_false_of_isJust h, hp]
  · simp [Dist.Maybe.filter, isNothing_false_of_isJust h, hp]

/-- Witness for C2 at concrete inputs: `undefined` collapses to `null`, a
passing present value is kept, a failing one collapses to `null`. -/
theorem C2_witness :
    Dist.Maybe.filter ⟨JSVal.undef⟩ truePred = ⟨JSVal.null⟩
    ∧ Dist.Maybe.filter ⟨JSVal.num 5⟩ truePred = ⟨JSVal.num 5⟩
    ∧ Dist.Maybe.filter ⟨JSVal.num 5⟩ falsePred = ⟨JSVal.null⟩ :=
  ⟨((C2_filter_amended ⟨JSVal.undef⟩ truePred truePred).1 rfl).1,
   (C2_filter_amended ⟨JSVal.num 5⟩ truePred truePred).2.1 rfl rfl,
   (C2_filter_amended ⟨JSVal.num 5⟩ falsePred falsePred).2.2 rfl rfl⟩

/-! ## C5 -/

def c5f : JSVal → Dist.Maybe := fun _ => ⟨.num 1⟩

/-- C5 counterexample: the claim says an absent input to `extend` is
preserved as-is, but `dist/Maybe.js` returns `new Maybe(null)` for any
absent input, so an `undefined`-tagged container does not stay
`undefined`-tagged. -/
theorem C5_counterexample :
    (Dist.Maybe.extend ⟨JSVal.undef⟩ "k" c5f)._value ≠ JSVal.undef := by
  intro h
  exact JSVal.noConfusion h

/-- C5 amended: an absent input to `extend` yields `Nothing` tagged with
the canonical `null` sentinel (an `undefined` tag is not preserved) and
`f` is not invoked; a present non-record also yields the canonical `null`
and `f` is not invoked; on a present record, `f` is applied — a `Just(u)`
result yields the record merged with `{key: u}`, an absent result
short-circuits to an absent container (carrying `f`'s tag). -/
theorem C5_extend_amended (m : Dist.Maybe) (k : String)
    (f g : JSVal → Dist.Maybe) :
    (isNothing m._value = true →
      Dist.Maybe.extend m k f = ⟨.null⟩
      ∧ Dist.Maybe.extend m k f = Dist.Maybe.extend m k g)
    ∧ (isJust m._value = true → typeofJS m._value ≠ "object" →
      Dist.Maybe.extend m k f = ⟨.null⟩
      ∧ Dist.Maybe.extend m k f = Dist.Maybe.extend m k g)
    ∧ (∀ fs, m._value = .obj fs →
      (∀ u, (f m._value)._value = u → isJust u = true →
        Dist.Maybe.extend m k f = ⟨.obj (objSet fs k u)⟩)
      ∧ (isNothing (f m._value)._value = true →
        (Dist.Maybe.extend m k f)._value = (f m._value)._value)) := by
  refine ⟨fun h => ?_, fun h ht => ?_, fun fs hfs => ⟨fun u hu hju => ?_,
    fun h2 => ?_⟩⟩
  · constructor <;> simp [Dist.Maybe.extend, h]
  · constructor <;> simp [Dist.Maybe.extend, isNothing_false_of_isJust h, ht]
  · have hn : isNothing (JSVal.obj fs) = false := rfl
    have ht : typeofJS (JSVal.obj fs) = "object" := rfl
    rw [hfs] at hu
    simp [Dist.Maybe.extend, hfs, hn, ht, Dist.Maybe.flatMap, Dist.Maybe.map,
      hu, isNothing_false_of_isJust hju, spreadWith, ownEntries]
  · have hn : isNothing (JSVal.obj fs) = false := rfl
    have ht : typeofJS (JSVal.obj fs) = "object" := rfl
    rw [hfs] at h2
    simp [Dist.Maybe.extend, hfs, hn, ht, Dist.Maybe.flatMap, Dist.Maybe.map,
      h2]

def c5fJust : JSVal → Dist.Maybe := fun _ => ⟨.str "yo"⟩

def c5fAbsent : JSVal → Dist.Maybe := fun _ => ⟨.undef⟩

/-- Witness for C5 at concrete inputs: an absent input and a present
non-record both collapse to `null`; on a present record a `Just` result of
`f` merges in, and an absent result of `f` short-circuits. -/
theorem C5_witness :
    Dist.Maybe.extend ⟨JSVal.undef⟩ "k" c5fJust = ⟨JSVal.null⟩
    ∧ Dist.Maybe.extend ⟨JSVal.num 5⟩ "k" c5fJust = ⟨JSVal.null⟩
    ∧ Dist.Maybe.extend ⟨JSVal.obj [("a", JSVal.num 1)]⟩ "k" c5fJust
        = ⟨JSVal.obj [("a", JSVal.num 1), ("k", JSVal.str "yo")]⟩
    ∧ (Dist.Maybe.extend ⟨JSVal.obj []⟩ "k" c5fAbsent)._value
        = JSVal.undef := by
  refine ⟨((C5_extend_amended ⟨JSVal.undef⟩ "k" c5fJust c5fJust).1 rfl).1,
    ((C5_extend_amended ⟨JSVal.num 5⟩ "k" c5fJust c5fJust).2.1 rfl
      (by decide)).1, ?_, ?_⟩
  · exact ((C5_extend_amended ⟨JSVal.obj [("a", JSVal.num 1)]⟩ "k" c5fJust
      c5fJust).2.2 [("a", JSVal.num 1)] rfl).1 (JSVal.str "yo") rfl rfl
  · exact ((C5_extend_amended ⟨JSVal.obj []⟩ "k" c5fAbsent c5fAbsent).2.2
      [] rfl).2 rfl

/-! ## C9 -/

/-- C9 counterexample: the claim says every combinator call produces a new
container rather than returning the receiver, but `effect` in
`dist/Maybe.js` always ends in `return this;` — the call returns the
receiver itself. -/
theorem C9_counterexample :
    Dist.Maybe.effectRet ⟨JSVal.num 1⟩ = Dist.MRet.self := rfl

/-- C9 amended: a container's tag and payload never change after
construction (each combinator is a pure function of the receiver's value,
and the receiver's observable value is unchanged by the self-returning
calls), and `map` and `filter` always produce new containers — but the
dist sync container's `withDefault` returns the receiver itself whenever
the value is present, and its `effect` always returns the receiver. -/
theorem C9_immutability_amended (m : Dist.Maybe) (d : JSVal)
    (fn : JSVal → JSVal) (p : JSVal → Bool) :
    (∃ u, Dist.Maybe.mapRet m fn = .fresh u)
    ∧ (∃ u, Dist.Maybe.filterRet m p = .fresh u)
    ∧ (Dist.Maybe.withDefaultRet m d = .self ↔ isJust m._value = true)
    ∧ Dist.Maybe.effectRet m = .self
    ∧ (isJust m._value = true → Dist.Maybe.withDefault m d = m) := by
  refine ⟨?_, ?_, ?_, rfl, fun h => ?_⟩
  · unfold Dist.Maybe.mapRet
    split
    · exact ⟨m._value, rfl⟩
    · exact ⟨fn m._value, rfl⟩
  · unfold Dist.Maybe.filterRet
    split
    · exact ⟨.null, rfl⟩
    · split
      · exact ⟨.null, rfl⟩
      · exact ⟨m._value, rfl⟩
  · unfold Dist.Maybe.withDefaultRet
    rcases h : isNothing m._value with _ | _ <;> simp [h, isJust]
  · simp [Dist.Maybe.withDefault, isNothing_false_of_isJust h]

/-- Witness for C9 at a concrete present container: `withDefault` returns
the receiver and leaves its value unchanged. -/
theorem C9_witness :
    Dist.Maybe.withDefaultRet ⟨JSVal.num 2⟩ JSVal.null = Dist.MRet.self
    ∧ Dist.Maybe.withDefault ⟨JSVal.num 2⟩ JSVal.null = ⟨JSVal.num 2⟩ := by
  have h := C9_immutability_amended ⟨JSVal.num 2⟩ JSVal.null (fun v => v)
    truePred
  exact ⟨h.2.2.1.mpr rfl, h.2.2.2.2 rfl⟩

/-! ## C3 -/

theorem checkAll_error (ys : List JSVal)
    (h : ∃ y ∈ ys, isMaybeInstance y = false) :
    Src.Maybe.checkAll ys
      = .error "filterMap callback must return a Maybe instance" := by
  induction ys with
  | nil => simp at h
  | cons y rest ih =>
    rcases h with ⟨z, hz, hbad⟩
    rcases List.mem_cons.mp hz with h1 | h1
    · subst h1
      cases z with
      | maybeObj u => simp [isMaybeInstance] at hbad
      | null => rfl
      | undef => rfl
      | num n => rfl
      | str s => rfl
      | bool b => rfl
      | arr xs => rfl
      | obj fs => rfl
      | asyncMaybeObj u => rfl
    · cases y with
      | maybeObj u =>
        have := ih ⟨z, h1, hbad⟩
        simp [Src.Maybe.checkAll, Src.Maybe.checkMaybe, this]
      | null => rfl
      | undef => rfl
      | num n => rfl
      | str s => rfl
      | bool b => rfl
      | arr xs => rfl
      | obj fs => rfl
      | asyncMaybeObj u => rfl

/-- The `for (const el of arr)` loop of the dist `filterMap` returns the
recovered `new Maybe(null)` whenever some element's callback result is not
a `Maybe` instance (the loop reaches the first offender and bails out). -/
theorem filterMapLoop_error (fn : JSVal → JSVal) (xs : List JSVal)
    (acc : List JSVal) (h : ∃ x ∈ xs, isMaybeInstance (fn x) = false) :
    Dist.Maybe.filterMapLoop fn acc xs = ⟨JSVal.null⟩ := by
  induction xs generalizing acc with
  | nil => simp at h
  | cons y rest ih =>
    cases hv : fn y with
    | maybeObj u =>
      have hrest : ∃ x ∈ rest, isMaybeInstance (fn x) = false := by
        rcases h with ⟨z, hz, hbad⟩
        rcases List.mem_cons.mp hz with h1 | h1
        · subst h1
          rw [hv] at hbad
          simp [isMaybeInstance] at hbad
        · exact ⟨z, h1, hbad⟩
      simp only [Dist.Maybe.filterMapLoop, hv]
      split
      · exact ih _ hrest
      · exact ih _ hrest
    | null => unfold Dist.Maybe.filterMapLoop; rw [hv]
    | undef => unfold Dist.Maybe.filterMapLoop; rw [hv]
    | num n => unfold Dist.Maybe.filterMapLoop; rw [hv]
    | str s => unfold Dist.Maybe.filterMapLoop; rw [hv]
    | bool b => unfold Dist.Maybe.filterMapLoop; rw [hv]
    | arr zs => unfold Dist.Maybe.filterMapLoop; rw [hv]
    | obj fs => unfold Dist.Maybe.filterMapLoop; rw [hv]
    | asyncMaybeObj u => unfold Dist.Maybe.filterMapLoop; rw [hv]

def c3f : JSVal → JSVal := fun v => v

/-- C3 counterexample: the claim says a non-`Maybe` callback result makes
the sync container's `filterMap` raise a thrown error, "not a recovered
absent outcome" — but the dist build (dist/Maybe.js lines 130–132, shipped
via dist/index.js) returns `Maybe.fromNullable(null)` for the identity
callback over the present array `[1]`: a recovered absent container, with
no error raised. -/
theorem C3_counterexample :
    Dist.Maybe.filterMap ⟨JSVal.arr [JSVal.num 1]⟩ c3f
      = ⟨JSVal.null⟩ := rfl

/-- C3 amended: when `filterMap` over a present sequence meets a callback
result that is not an Option container, the TS source class (src/Maybe.ts
lines 78–83) throws the invalid-callback-shape error and propagates it
immediately to the caller, but the compiled dist build (dist/Maybe.js
lines 130–132) instead recovers to the canonical absent container
`Nothing(null)` at the first offending element — an absent outcome, not a
thrown error. -/
theorem C3_filterMap_amended (ms : Src.Maybe) (md : Dist.Maybe)
    (xs : List JSVal) (fn : JSVal → JSVal) :
    (ms._value = .arr xs → (∃ x ∈ xs, isMaybeInstance (fn x) = false) →
      Src.Maybe.filterMap ms fn
        = .error "filterMap callback must return a Maybe instance")
    ∧ (md._value = .arr xs → (∃ x ∈ xs, isMaybeInstance (fn x) = false) →
      Dist.Maybe.filterMap md fn = ⟨JSVal.null⟩) := by
  constructor
  · intro harr hbad
    have hwhen : Src.Maybe.when ms isArrayJS = ⟨.arr xs⟩ := by
      simp [Src.Maybe.when, harr, isNothing, isArrayJS, Src.Maybe.fromVal]
    have hbad2 : ∃ y ∈ xs.map fn, isMaybeInstance y = false := by
      rcases hbad with ⟨x, hx, hb⟩
      exact ⟨fn x, List.mem_map_of_mem fn hx, hb⟩
    unfold Src.Maybe.filterMap
    rw [hwhen]
    simp [Src.Maybe.mapE, isNothing, Src.Maybe.arrBody, checkAll_error _ hbad2]
  · intro harr hbad
    obtain ⟨mv⟩ := md
    simp only at harr
    subst harr
    show Dist.Maybe.filterMapLoop fn [] xs = ⟨JSVal.null⟩
    exact filterMapLoop_error fn xs [] hbad

/-- Witness for C3: over the present array `[1]` with the identity
callback (raw numbers, not `Maybe` instances), the TS source class
raises the error while the dist build returns `Nothing(null)`. -/
theorem C3_witness :
    Src.Maybe.filterMap ⟨JSVal.arr [JSVal.num 1]⟩ c3f
      = .error "filterMap callback must return a Maybe instance"
    ∧ Dist.Maybe.filterMap ⟨JSVal.arr [JSVal.num 1]⟩ c3f
      = ⟨JSVal.null⟩ := by
  have h := C3_filterMap_amended ⟨JSVal.arr [JSVal.num 1]⟩
    ⟨JSVal.arr [JSVal.num 1]⟩ [JSVal.num 1] c3f
  exact ⟨h.1 rfl ⟨JSVal.num 1, List.Mem.head _, rfl⟩,
    h.2 rfl ⟨JSVal.num 1, List.Mem.head _, rfl⟩⟩

/-! ## C4 -/

def c4f : JSVal → AsyncRet := fun _ => .val (.maybeObj (.num 1))

/-- C4 counterexample: the claim says an array-shaped absence and a
present non-array value are not the same outcome, but a `null`-tagged
absence and the present non-array `5` both come out of
`AsyncMaybe.filterMap` as `null`. -/
theorem C4_counterexample :
    (AsyncMaybe.filterMap ⟨JSVal.null⟩ c4f [])._value
      = (AsyncMaybe.filterMap ⟨JSVal.num 5⟩ c4f [])._value := rfl

/-- C4 amended: an absent inner value is preserved with exactly its
original sentinel (`null` stays `null`, `undefined` stays `undefined`);
a present non-array yields the canonical `null` sentinel — an outcome
distinct from an `undefined`-tagged absence but identical to a
`null`-tagged absence. -/
theorem C4_filterMap_amended (m : AsyncMaybe) (f : JSVal → AsyncRet)
    (ord : List Nat) :
    (isNothing m._value = true →
      (AsyncMaybe.filterMap m f ord)._value = m._value)
    ∧ (isJust m._value = true → isArrayJS m._value = false →
      (AsyncMaybe.filterMap m f ord)._value = JSVal.null)
    ∧ (m._value = JSVal.undef →
      (AsyncMaybe.filterMap m f ord)._value ≠ JSVal.null) := by
  refine ⟨fun h => by simp [AsyncMaybe.filterMap, h], fun h hna => ?_,
    fun h => ?_⟩
  · have hn := isNothing_false_of_isJust h
    unfold AsyncMaybe.filterMap
    rw [if_neg (by simp [hn])]
    cases hv : m._value with
    | arr xs => rw [hv] at hna; simp [isArrayJS] at hna
    | null => rfl
    | undef => rfl
    | num n => rfl
    | str s => rfl
    | bool b => rfl
    | obj fs => rfl
    | maybeObj v => rfl
    | asyncMaybeObj v => rfl
  · unfold AsyncMaybe.filterMap
    rw [h]
    intro hc
    exact JSVal.noConfusion hc

/-- Witness for C4: an `undefined` absence is preserved, while the
present non-array `5` collapses to `null`. -/
theorem C4_witness :
    (AsyncMaybe.filterMap ⟨JSVal.undef⟩ c4f [])._value = JSVal.undef
    ∧ (AsyncMaybe.filterMap ⟨JSVal.num 5⟩ c4f [])._value = JSVal.null :=
  ⟨(C4_filterMap_amended ⟨JSVal.undef⟩ c4f []).1 rfl,
   (C4_filterMap_amended ⟨JSVal.num 5⟩ c4f []).2.1 rfl rfl⟩

/-! ## C6 -/

def c6f : JSVal → AsyncRet
  | .num n => if n % 2 = 0 then .val (.maybeObj (.num (n * 10)))
              else .val (.maybeObj .null)
  | _ => .val (.maybeObj .null)

/-- C6: `AsyncMaybe.filterMap` over a present array applies the callback
to every element, normalizes each result one level, drops absent results,
and returns the kept payloads in original element order — for every
completion schedule that completes all element tasks, so completion order
never matters; in particular `[1,2,3,4,5]` with an even-keeping,
times-ten callback resolves to `[20,40]` under a scrambled completion
order. -/
theorem C6_filterMap_order (m : AsyncMaybe) (xs : List JSVal)
    (f : JSVal → AsyncRet) (ord : List Nat) (harr : m._value = .arr xs)
    (hcov : ∀ i < xs.length, i ∈ ord) :
    (AsyncMaybe.filterMap m f ord)._value
      = .arr ((xs.map (fun el => flatOut (jsAwait (f el)))).filter isJust)
    ∧ (AsyncMaybe.filterMap ⟨JSVal.arr [JSVal.num 1, JSVal.num 2,
        JSVal.num 3, JSVal.num 4, JSVal.num 5]⟩ c6f [4, 1, 3, 0, 2])._value
      = JSVal.arr [JSVal.num 20, JSVal.num 40] := by
  constructor
  · obtain ⟨mv⟩ := m
    simp only at harr
    subst harr
    show JSVal.arr ((AsyncMaybe.promiseAll JSVal.undef
        (xs.map (fun el => flatOut (jsAwait (f el)))) ord).filter isJust)
      = JSVal.arr ((xs.map (fun el => flatOut (jsAwait (f el)))).filter
          isJust)
    rw [promiseAll_covered JSVal.undef _ ord (by simpa using hcov)]
  · rfl

/-- Witness for C6: the concrete pipeline of the spec's example, with the
scrambled completion schedule `[4,1,3,0,2]`, resolves to `[20,40]`. -/
theorem C6_witness :
    (AsyncMaybe.filterMap ⟨JSVal.arr [JSVal.num 1, JSVal.num 2,
        JSVal.num 3, JSVal.num 4, JSVal.num 5]⟩ c6f [4, 1, 3, 0, 2])._value
      = JSVal.arr [JSVal.num 20, JSVal.num 40] :=
  (C6_filterMap_order ⟨JSVal.arr [JSVal.num 1, JSVal.num 2, JSVal.num 3,
      JSVal.num 4, JSVal.num 5]⟩ [JSVal.num 1, JSVal.num 2, JSVal.num 3,
      JSVal.num 4, JSVal.num 5] c6f [4, 1, 3, 0, 2] rfl (by decide)).2

/-! ## Shared facts about `assign` -/

theorem isNullJS_false_of_isJust {v : JSVal} (h : isJust v = true) :
    isNullJS v = false := by
  cases v <;> first | rfl | simp [isJust, isNothing] at h

/-- On a present inner value, `assign` resolves to its body's result (the
`flatMap` wrapper normalizes the body's `AsyncMaybe` by awaiting it). -/
theorem assign_present (m : AsyncMaybe)
    (fns : List (String × (JSVal → EntryRet))) (ord : List Nat)
    (hjust : isJust m._value = true) :
    AsyncMaybe.assign m fns ord
      = ⟨AsyncMaybe.assignBody fns ord m._value⟩ := by
  unfold AsyncMaybe.assign AsyncMaybe.flatMap
  rw [if_neg (by simp [isNothing_false_of_isJust hjust])]
  rfl

/-- On an object base and a schedule completing every entry task, the
`assign` body is the merge-or-collapse over the entries' resolved values
in entry order. -/
theorem assignBody_eval (fns : List (String × (JSVal → EntryRet)))
    (ord : List Nat) (obj : JSVal) (hobj : typeofJS obj = "object")
    (hnn : isNullJS obj = false) (hcov : ∀ i < fns.length, i ∈ ord) :
    AsyncMaybe.assignBody fns ord obj
      = (if (fns.map (fun p => (p.1, entryValue (p.2 obj)))).any
            (fun p => isNothing p.2) then JSVal.null
         else .obj (objMerge (ownEntries obj) (objFromEntries
            (fns.map (fun p => (p.1, entryValue (p.2 obj))))))) := by
  unfold AsyncMaybe.assignBody
  rw [if_neg (by simp [hobj, hnn])]
  rw [promiseAll_covered ("", JSVal.undef)
      (fns.map (fun p => (p.1, entryValue (p.2 obj)))) ord
      (by simpa using hcov)]

/-! ## C7 -/

/-- C7: on a present record base, `assign` issues the `start` of every
entry function, every `start` event precedes every `complete` event in
the trace (all entry callbacks are invoked before any is awaited — never
sequentially), and the awaited merge is the same for every completion
schedule that completes all tasks (completion order is unconstrained). -/
theorem C7_assign_concurrent (m : AsyncMaybe)
    (fns : List (String × (JSVal → EntryRet))) (ord o1 o2 : List Nat)
    (hjust : isJust m._value = true) (hobj : typeofJS m._value = "object")
    (hnn : isNullJS m._value = false) :
    (∀ p ∈ fns, Ev.start p.1 ∈ AsyncMaybe.assignEvents m fns ord)
    ∧ (∀ (i j : Nat) (k k' : String),
        (AsyncMaybe.assignEvents m fns ord)[i]? = some (Ev.start k) →
        (AsyncMaybe.assignEvents m fns ord)[j]? = some (Ev.complete k') →
        i < j)
    ∧ ((∀ i < fns.length, i ∈ o1) → (∀ i < fns.length, i ∈ o2) →
        AsyncMaybe.assign m fns o1 = AsyncMaybe.assign m fns o2) := by
  have hn := isNothing_false_of_isJust hjust
  have hev : AsyncMaybe.assignEvents m fns ord
      = (fns.map (fun p => Ev.start p.1))
        ++ ord.filterMap
            (fun i => (fns.get? i).map (fun p => Ev.complete p.1)) := by
    unfold AsyncMaybe.assignEvents
    rw [if_neg (by simp [hn, hobj, hnn])]
  refine ⟨?_, ?_, ?_⟩
  · intro p hp
    rw [hev]
    exact List.mem_append_left _ (List.mem_map_of_mem _ hp)
  · intro i j k k' hi hj
    rw [hev] at hi hj
    have hstarts : i < (fns.map (fun p => Ev.start p.1)).length := by
      by_contra hge
      push_neg at hge
      rw [List.getElem?_append_right hge] at hi
      have hmem := List.getElem?_mem hi
      rcases List.mem_filterMap.mp hmem with ⟨a, _, ha⟩
      rcases Option.map_eq_some'.mp ha with ⟨p, _, hp⟩
      exact Ev.noConfusion hp
    have hcompl : (fns.map (fun p => Ev.start p.1)).length ≤ j := by
      by_contra hlt
      push_neg at hlt
      rw [List.getElem?_append_left hlt] at hj
      have hmem := List.getElem?_mem hj
      rcases List.mem_map.mp hmem with ⟨p, _, hp⟩
      exact Ev.noConfusion hp
    exact lt_of_lt_of_le hstarts hcompl
  · intro hc1 hc2
    rw [assign_present m fns o1 hjust, assign_present m fns o2 hjust,
      assignBody_eval fns o1 m._value hobj hnn hc1,
      assignBody_eval fns o2 m._value hobj hnn hc2]

def c7fns : List (String × (JSVal → EntryRet)) :=
  [("a", fun _ => .maybe (.num 1)), ("b", fun _ => .asyncMaybe (.num 2))]

/-- Witness for C7 on a concrete record base and two entry functions:
both entries are issued, and two different completion schedules give the
same assigned record. -/
theorem C7_witness :
    Ev.start "a" ∈ AsyncMaybe.assignEvents ⟨JSVal.obj []⟩ c7fns [0, 1]
    ∧ AsyncMaybe.assign ⟨JSVal.obj []⟩ c7fns [1, 0]
        = AsyncMaybe.assign ⟨JSVal.obj []⟩ c7fns [0, 1] := by
  have h := C7_assign_concurrent ⟨JSVal.obj []⟩ c7fns [0, 1] [1, 0] [0, 1]
    rfl rfl rfl
  exact ⟨h.1 ("a", fun _ => EntryRet.maybe (JSVal.num 1)) (List.Mem.head _),
    h.2.2 (by decide) (by decide)⟩

/-! ## C10 -/

/-- C10: for `assign`, an absent awaited base short-circuits before the
record check and preserves exactly the original sentinel tag; a present
non-object base collapses to the `null` sentinel; and whenever any entry
function's normalized result is absent — under either sentinel — the
whole result is the `null` sentinel. -/
theorem C10_assign_sentinels (m : AsyncMaybe)
    (fns : List (String × (JSVal → EntryRet))) (ord : List Nat) :
    (isNothing m._value = true →
      (AsyncMaybe.assign m fns ord)._value = m._value)
    ∧ (isJust m._value = true → typeofJS m._value ≠ "object" →
      (AsyncMaybe.assign m fns ord)._value = JSVal.null)
    ∧ (isJust m._value = true → (∀ i < fns.length, i ∈ ord) →
      (∃ p ∈ fns, isNothing (entryValue (p.2 m._value)) = true) →
      (AsyncMaybe.assign m fns ord)._value = JSVal.null) := by
  refine ⟨fun h => ?_, fun h ht => ?_, fun h hcov hex => ?_⟩
  · simp [AsyncMaybe.assign, AsyncMaybe.flatMap, h]
  · rw [assign_present m fns ord h]
    unfold AsyncMaybe.assignBody
    rw [if_pos (by simp [ht])]
  · rw [assign_present m fns ord h]
    rcases Decidable.em (typeofJS m._value = "object") with hobj | hobj
    · rw [assignBody_eval fns ord m._value hobj
        (isNullJS_false_of_isJust h) hcov]
      rw [if_pos ?_]
      rcases hex with ⟨p, hp, hnp⟩
      refine List.any_eq_true.mpr ⟨(p.1, entryValue (p.2 m._value)), ?_, hnp⟩
      exact List.mem_map.mpr ⟨p, hp, rfl⟩
    · unfold AsyncMaybe.assignBody
      rw [if_pos (by simp [hobj])]

def c10fns : List (String × (JSVal → EntryRet)) :=
  [("a", fun _ => .maybe (.num 1)), ("b", fun _ => .asyncMaybe .undef)]

/-- Witness for C10: an `undefined` base is preserved exactly; a present
number base collapses to `null`; a record base with one entry resolving
to `undefined` collapses to `null` (not `undefined`). -/
theorem C10_witness :
    (AsyncMaybe.assign ⟨JSVal.undef⟩ c10fns [0, 1])._value = JSVal.undef
    ∧ (AsyncMaybe.assign ⟨JSVal.num 3⟩ c10fns [0, 1])._value = JSVal.null
    ∧ (AsyncMaybe.assign ⟨JSVal.obj []⟩ c10fns [0, 1])._value
        = JSVal.null := by
  refine ⟨(C10_assign_sentinels ⟨JSVal.undef⟩ c10fns [0, 1]).1 rfl,
    (C10_assign_sentinels ⟨JSVal.num 3⟩ c10fns [0, 1]).2.1 rfl (by decide),
    (C10_assign_sentinels ⟨JSVal.obj []⟩ c10fns [0, 1]).2.2 rfl (by decide)
      ⟨("b", fun _ => EntryRet.asyncMaybe JSVal.undef), ?_, rfl⟩⟩
  exact List.Mem.tail _ (List.Mem.head _)
